import Mathlib

/-!
Shallow embedding of the `mittwald-flow-mcp` MCP server (TypeScript sources:
`src/services/cache.ts`, `src/services/scraper.ts`, the GitHub service module
and the MDX cleaner) together with theorems settling the frozen claims about
it.

Conventions of the embedding:
* A JavaScript `Map` is modelled as an association list with the insertion
  order semantics of `Map.prototype.set` (replace in place, else append).
* The module-global cache store of `cache.ts` is threaded explicitly; the
  current wall clock (`Date.now()`, milliseconds) is an explicit `Nat`.
* `fetch` is modelled by an oracle assigning an `HttpResponse` to each URL;
  a rejected promise / thrown `Error` is an `Except.error` carrying the
  message string.
* JavaScript truthiness on strings (`if (cached)`, `if (content)`,
  `if (category)`, `component || slug`, `heading || "Other"`) is modelled by
  an explicit emptiness test, and on `null`-able strings by `Option` plus
  the emptiness test.
-/

namespace MittwaldFlow

/-! ## JavaScript `Map` model -/

/-- `Map.prototype.get`: first (and only) binding of the key. -/
def mapGet (m : List (String × α)) (k : String) : Option α :=
  match m with
  | [] => none
  | (k', v) :: rest => if k' = k then some v else mapGet rest k

/-- `Map.prototype.set`: replace an existing binding in place, else append. -/
def mapSet (m : List (String × α)) (k : String) (v : α) : List (String × α) :=
  match m with
  | [] => [(k, v)]
  | (k', v') :: rest =>
    if k' = k then (k, v) :: rest else (k', v') :: mapSet rest k v

/-- `Map.prototype.delete`: remove the binding of the key. -/
def mapDelete (m : List (String × α)) (k : String) : List (String × α) :=
  match m with
  | [] => []
  | (k', v') :: rest =>
    if k' = k then rest else (k', v') :: mapDelete rest k

theorem mapGet_mapSet (m : List (String × α)) (k k' : String) (v : α) :
    mapGet (mapSet m k v) k' = if k = k' then some v else mapGet m k' := by
  induction m with
  | nil => simp [mapGet, mapSet]
  | cons hd tl ih =>
    obtain ⟨a, b⟩ := hd
    by_cases hak : a = k
    · subst hak
      by_cases hk' : a = k' <;> simp [mapGet, mapSet, hk']
    · by_cases hk' : a = k'
      · subst hk'
        simp [mapGet, mapSet, hak, Ne.symm hak]
      · simp [mapGet, mapSet, hak, hk', ih]

/-- The invariant a JavaScript `Map` maintains by construction: one binding
per key. -/
def storeWF (m : List (String × α)) : Prop :=
  m.Pairwise (fun p q => p.1 ≠ q.1)

theorem mapGet_eq_none_of_forall (m : List (String × α)) (k : String)
    (h : ∀ p ∈ m, p.1 ≠ k) : mapGet m k = none := by
  induction m with
  | nil => rfl
  | cons hd tl ih =>
    rw [mapGet, if_neg (h hd (List.mem_cons_self hd tl))]
    exact ih fun p hp => h p (List.mem_cons_of_mem hd hp)

theorem mem_mapSet (m : List (String × α)) (k : String) (v : α)
    (p : String × α) (hp : p ∈ mapSet m k v) : p ∈ m ∨ p = (k, v) := by
  induction m with
  | nil => simpa [mapSet] using hp
  | cons hd tl ih =>
    obtain ⟨a, b⟩ := hd
    by_cases hak : a = k
    · subst hak
      rw [mapSet, if_pos rfl] at hp
      rcases List.mem_cons.mp hp with h | h
      · exact Or.inr h
      · exact Or.inl (List.mem_cons_of_mem _ h)
    · rw [mapSet, if_neg hak] at hp
      rcases List.mem_cons.mp hp with h | h
      · exact Or.inl (h ▸ List.mem_cons_self _ _)
      · rcases ih h with h' | h'
        · exact Or.inl (List.mem_cons_of_mem _ h')
        · exact Or.inr h'

theorem mapGet_mapDelete_self (m : List (String × α)) (k : String)
    (hwf : storeWF m) : mapGet (mapDelete m k) k = none := by
  induction m with
  | nil => rfl
  | cons hd tl ih =>
    obtain ⟨a, b⟩ := hd
    simp only [storeWF, List.pairwise_cons] at hwf
    by_cases hak : a = k
    · subst hak
      rw [mapDelete, if_pos rfl]
      exact mapGet_eq_none_of_forall tl a fun p hp => (hwf.1 p hp).symm
    · rw [mapDelete, if_neg hak, mapGet, if_neg hak]
      exact ih hwf.2

theorem storeWF_mapSet (m : List (String × α)) (k : String) (v : α)
    (hwf : storeWF m) : storeWF (mapSet m k v) := by
  induction m with
  | nil => simp [mapSet, storeWF]
  | cons hd tl ih =>
    obtain ⟨a, b⟩ := hd
    simp only [storeWF, List.pairwise_cons] at hwf
    by_cases hak : a = k
    · subst hak
      rw [mapSet, if_pos rfl]
      exact List.pairwise_cons.mpr hwf
    · rw [mapSet, if_neg hak]
      refine List.pairwise_cons.mpr ⟨?_, ih hwf.2⟩
      intro p hp
      rcases mem_mapSet tl k v p hp with hp' | hp'
      · exact hwf.1 p hp'
      · rw [hp']; exact hak

/-! ## `src/types.ts` -/

structure ComponentInfo where
  slug : String
  name : String
  description : String
  category : String
  deriving Repr, DecidableEq

structure ComponentRegistry where
  components : List ComponentInfo
  bySlug : List (String × ComponentInfo)
  deriving Repr, DecidableEq

structure PropertyInfo where
  name : String
  type : String
  default : String
  required : Bool
  description : String
  deriving Repr, DecidableEq

structure PropertiesSection where
  heading : String
  properties : List PropertyInfo
  deriving Repr, DecidableEq

structure DevelopData where
  sections : List PropertiesSection
  deriving Repr, DecidableEq

structure CacheEntry (α : Type) where
  value : α
  expiresAt : Nat
  deriving Repr, DecidableEq

/-! ## `src/services/cache.ts` -/

def TTL_REGISTRY : Nat := 60 * 60 * 1000
def TTL_MDX : Nat := 30 * 60 * 1000
def TTL_DEVELOP : Nat := 120 * 60 * 1000
def TTL_EXAMPLE : Nat := 30 * 60 * 1000

/-- The module-global `store`, restricted to entries of one value type
(the TypeScript store is keyed heterogeneously; keys of distinct value
types never collide because each carries a distinct prefix). -/
abbrev Store (α : Type) := List (String × CacheEntry α)

/-- `cacheGet`: miss on an absent key; on `Date.now() > entry.expiresAt`
delete the entry and miss; otherwise return the stored value.  Returns the
result together with the store after the call (lazy eviction). -/
def cacheGet (now : Nat) (store : Store α) (key : String) :
    Option α × Store α :=
  match mapGet store key with
  | none => (none, store)
  | some entry =>
    if now > entry.expiresAt then (none, mapDelete store key)
    else (some entry.value, store)

/-- `cacheSet`: store the value with `expiresAt = Date.now() + ttl`. -/
def cacheSet (now : Nat) (store : Store α) (key : String) (value : α)
    (ttl : Nat) : Store α :=
  mapSet store key { value := value, expiresAt := now + ttl }

/-! ## String helpers (JavaScript semantics) -/

/-- `String.prototype.toLowerCase()` (ASCII, as used on slugs/names). -/
def jsToLower (s : String) : String :=
  ⟨s.data.map Char.toLower⟩

def isPrefixOfChars : List Char → List Char → Bool
  | [], _ => true
  | _ :: _, [] => false
  | a :: as, b :: bs => a == b && isPrefixOfChars as bs

def containsChars (sub : List Char) : List Char → Bool
  | [] => isPrefixOfChars sub []
  | b :: bs => isPrefixOfChars sub (b :: bs) || containsChars sub bs

/-- `s.includes(sub)` — substring containment. -/
def jsIncludes (s sub : String) : Bool :=
  containsChars sub.data s.data

/-- JavaScript truthiness of a `string | null | undefined`:
falsy iff absent or the empty string. -/
def strOptFalsy : Option String → Bool
  | none => true
  | some s => s.isEmpty

def jsTruthy (o : Option String) : Bool :=
  !(strOptFalsy o)

/-! ## `fetch` model -/

structure HttpResponse where
  status : Nat
  statusText : String
  ok : Bool
  body : String

/-- `fetchRaw`: `404 ↦ null`, any other non-ok status throws, otherwise the
body text. -/
def fetchRaw (res : HttpResponse) : Except String (Option String) :=
  if res.status = 404 then .ok none
  else if !res.ok then
    .error ("GitHub raw fetch error: " ++ toString res.status ++ " " ++ res.statusText)
  else .ok (some res.body)

/-! ## GitHub service module (`getRegistry`, `resolveCategory`,
`suggestComponent`, `fetchMdx`, `fetchExample`) -/

def REPO : String := "mittwald/flow"
def BRANCH : String := "main"
def CONTENT_BASE : String := "apps/docs/src/content/04-components"
def RAW_BASE : String := "https://raw.githubusercontent.com/" ++ REPO ++ "/" ++ BRANCH

structure TreeEntry where
  path : String
  type : String

/-- The network as seen by this module: the tree-listing response with its
parsed JSON body, and one response per raw-content URL. -/
structure Network where
  treeResponse : HttpResponse
  treeBody : List TreeEntry
  raw : String → HttpResponse

/-- `fetchJson` applied to the tree endpoint: non-ok throws, otherwise the
parsed body. -/
def fetchJsonTree (net : Network) : Except String (List TreeEntry) :=
  if !net.treeResponse.ok then
    .error ("GitHub API error: " ++ toString net.treeResponse.status ++ " "
      ++ net.treeResponse.statusText)
  else .ok net.treeBody

/-- Split a character list at every `'/'` (the semantics of splitting a
path on the slash separator). -/
def splitSlash : List Char → List (List Char)
  | [] => [[]]
  | c :: rest =>
    if c = '/' then [] :: splitSlash rest
    else
      match splitSlash rest with
      | [] => [[c]]
      | h :: t => (c :: h) :: t

/-- The anchored regex
`^apps/docs/src/content/04-components/([^/]+)/([^/]+)/index\.mdx$`:
both captures are nonempty and slash-free. -/
def matchIndexPath (path : String) : Option (String × String) :=
  match (splitSlash path.data).map String.mk with
  | ["apps", "docs", "src", "content", "04-components", category, slug, "index.mdx"] =>
    if category.isEmpty || slug.isEmpty then none else some (category, slug)
  | _ => none

/-- The `entries` loop of `getRegistry`. -/
def indexEntries (tree : List TreeEntry) : List (String × String) :=
  tree.filterMap fun e => matchIndexPath e.path

def treeEntriesOf (net : Network) : List (String × String) :=
  indexEntries net.treeBody

/-- The per-component raw URL `${RAW_BASE}/${CONTENT_BASE}/${category}/${slug}/index.mdx`. -/
def componentUrl (category slug : String) : String :=
  RAW_BASE ++ "/" ++ CONTENT_BASE ++ "/" ++ category ++ "/" ++ slug ++ "/index.mdx"

/-- The body of the `entries.map` callback in `getRegistry`, after the raw
fetch: `!raw` (null or empty) degrades to `name = slug`, empty description;
otherwise the frontmatter is parsed and `component || slug` names the
component.  `parseFM` is the `parseFrontmatter` function, passed as a
parameter (its regex internals are irrelevant to the claims). -/
def buildComponent (parseFM : String → String × String) (category slug : String)
    (raw : Option String) : ComponentInfo :=
  if strOptFalsy raw then
    { slug := slug, name := slug, description := "", category := category }
  else
    let fm := parseFM (raw.getD "")
    { slug := slug
      name := if fm.1.isEmpty then slug else fm.1
      description := fm.2
      category := category }

/-- `Promise.all` over the per-component `fetchRaw` calls: any rejection
rejects the aggregate. -/
def fetchAll (net : Network) :
    List (String × String) → Except String (List (String × String × Option String))
  | [] => .ok []
  | (category, slug) :: rest =>
    match fetchRaw (net.raw (componentUrl category slug)) with
    | .error e => .error e
    | .ok raw =>
      match fetchAll net rest with
      | .error e => .error e
      | .ok list => .ok ((category, slug, raw) :: list)

/-- The `bySlug` loop of `getRegistry`: `bySlug.set(c.slug, c)` over the
components in order. -/
def buildBySlug (components : List ComponentInfo) : List (String × ComponentInfo) :=
  components.foldl (fun m c => mapSet m c.slug c) []

/-- `getRegistry`: cache hit short-circuits; otherwise fetch the tree,
fetch every component's `index.mdx`, build the components list and the
`bySlug` map, and cache the registry for `TTL.REGISTRY`. -/
def getRegistry (parseFM : String → String × String) (net : Network) (now : Nat)
    (store : Store ComponentRegistry) :
    Except String ComponentRegistry × Store ComponentRegistry :=
  match (cacheGet now store "registry").1 with
  | some cached => (.ok cached, (cacheGet now store "registry").2)
  | none =>
    match fetchJsonTree net with
    | .error e => (.error e, (cacheGet now store "registry").2)
    | .ok tree =>
      match fetchAll net (indexEntries tree) with
      | .error e => (.error e, (cacheGet now store "registry").2)
      | .ok fetched =>
        let components := fetched.map fun x => buildComponent parseFM x.1 x.2.1 x.2.2
        let registry : ComponentRegistry := ⟨components, buildBySlug components⟩
        (.ok registry,
         cacheSet now (cacheGet now store "registry").2 "registry" registry TTL_REGISTRY)

/-- `resolveCategory`: `if (category)` (truthy, i.e. present and nonempty)
returns `(category, component)` verbatim; otherwise the registry's `bySlug`
map decides, with `null` as the miss signal. -/
def resolveCategory (parseFM : String → String × String) (net : Network) (now : Nat)
    (store : Store ComponentRegistry) (component : String) (category : Option String) :
    Except String (Option (String × String)) × Store ComponentRegistry :=
  if jsTruthy category then
    (.ok (some (category.getD "", component)), store)
  else
    match (getRegistry parseFM net now store).1 with
    | .error e => (.error e, (getRegistry parseFM net now store).2)
    | .ok registry =>
      match mapGet registry.bySlug component with
      | some info =>
        (.ok (some (info.category, info.slug)), (getRegistry parseFM net now store).2)
      | none => (.ok none, (getRegistry parseFM net now store).2)

/-- `suggestComponent`: filter on `slug.includes(lower) ||
name.toLowerCase().includes(lower)`, take 5, map to slugs. -/
def suggestComponent (input : String) (registry : ComponentRegistry) : List String :=
  let lower := jsToLower input
  ((registry.components.filter fun c =>
      jsIncludes c.slug lower || jsIncludes (jsToLower c.name) lower).take 5).map
    fun c => c.slug

def mdxCacheKey (category component tab : String) : String :=
  "mdx:" ++ category ++ "/" ++ component ++ "/" ++ tab

def mdxUrl (category component tab : String) : String :=
  RAW_BASE ++ "/" ++ CONTENT_BASE ++ "/" ++ category ++ "/" ++ component ++ "/"
    ++ tab ++ ".mdx"

/-- `fetchMdx`: truthy cache hit returns the cached text; otherwise fetch,
cache only a truthy (nonempty) result under `TTL.MDX`, and return the
content (`null` on 404). -/
def fetchMdx (net : Network) (now : Nat) (store : Store String)
    (category component tab : String) : Except String (Option String) × Store String :=
  let cacheKey := mdxCacheKey category component tab
  let cached := (cacheGet now store cacheKey).1
  let store₁ := (cacheGet now store cacheKey).2
  if jsTruthy cached then (.ok cached, store₁)
  else
    match fetchRaw (net.raw (mdxUrl category component tab)) with
    | .error e => (.error e, store₁)
    | .ok content =>
      if jsTruthy content then
        (.ok content, cacheSet now store₁ cacheKey (content.getD "") TTL_MDX)
      else (.ok content, store₁)

def exampleCacheKey (category component name : String) : String :=
  "example:" ++ category ++ "/" ++ component ++ "/" ++ name

def exampleUrl (category component name : String) : String :=
  RAW_BASE ++ "/" ++ CONTENT_BASE ++ "/" ++ category ++ "/" ++ component
    ++ "/examples/" ++ name ++ ".tsx"

/-- `fetchExample`: same shape as `fetchMdx` with the `example:` key,
`examples/${name}.tsx` URL and `TTL.EXAMPLE`. -/
def fetchExample (net : Network) (now : Nat) (store : Store String)
    (category component : String) (name : String := "default") :
    Except String (Option String) × Store String :=
  let cacheKey := exampleCacheKey category component name
  let cached := (cacheGet now store cacheKey).1
  let store₁ := (cacheGet now store cacheKey).2
  if jsTruthy cached then (.ok cached, store₁)
  else
    match fetchRaw (net.raw (exampleUrl category component name)) with
    | .error e => (.error e, store₁)
    | .ok content =>
      if jsTruthy content then
        (.ok content, cacheSet now store₁ cacheKey (content.getD "") TTL_EXAMPLE)
      else (.ok content, store₁)

/-! ## `src/services/scraper.ts` -/

def developCacheKey (category component : String) : String :=
  "develop:" ++ category ++ "/" ++ component

def SITE_BASE : String := "https://mittwald.github.io/flow"

def developUrl (category component : String) : String :=
  SITE_BASE ++ "/04-components/" ++ category ++ "/" ++ component ++ "/develop"

/-- Outcome oracle for one run of `scrapeDevelop`: each awaited Playwright
operation either resolves (`ok`) or rejects (`error` with the message).
One accordion's processing (heading/expanded-state evaluation, click, the
caught inner wait, table evaluation) collapses to one fallible step
yielding its heading and extracted rows — every one of those awaits sits
inside the `try` block, so the collapse preserves which operations the
`finally` covers. -/
structure ScrapeEnv where
  launch : Except String Unit
  newContext : Except String Unit
  route : Except String Unit
  newPage : Except String Unit
  goto : Except String Unit
  waitForSelector : Except String Unit
  extractMain : Except String (List PropertyInfo)
  accordions : Except String (List (Except String (String × List PropertyInfo)))

structure ScrapeResult where
  outcome : Except String DevelopData
  contextCreated : Bool
  contextClosed : Bool
  store : Store DevelopData

/-- The accordion `for`-loop: sequential, first rejection aborts the `try`
body; a section is pushed only when rows were extracted, under
`heading || "Other"`. -/
def processAccordions :
    List (Except String (String × List PropertyInfo)) →
      Except String (List PropertiesSection)
  | [] => .ok []
  | .error e :: _ => .error e
  | .ok (heading, props) :: rest =>
    match processAccordions rest with
    | .error e => .error e
    | .ok sections =>
      .ok (if props.length > 0 then
            { heading := if heading.isEmpty then "Other" else heading
              properties := props } :: sections
          else sections)

/-- The `try` block of `scrapeDevelop`: goto, wait, main-table extraction,
accordion loop, assembling `DevelopData`. -/
def scrapeTryBody (env : ScrapeEnv) : Except String DevelopData :=
  match env.goto with
  | .error e => .error e
  | .ok _ =>
    match env.waitForSelector with
    | .error e => .error e
    | .ok _ =>
      match env.extractMain with
      | .error e => .error e
      | .ok mainProps =>
        let sections :=
          if mainProps.length > 0 then
            [{ heading := "Properties", properties := mainProps : PropertiesSection }]
          else []
        match env.accordions with
        | .error e => .error e
        | .ok accs =>
          match processAccordions accs with
          | .error e => .error e
          | .ok accSections => .ok ⟨sections ++ accSections⟩

/-- `scrapeDevelop`: cache hit returns without touching the browser.
Otherwise the browser is (re)acquired, a context is created, routing is
installed and a page opened — these two awaits happen *before* the
`try`/`finally` — then the `try` body runs with `context.close()` in the
`finally`.  `contextCreated`/`contextClosed` record whether `newContext`
resolved and whether `context.close()` was reached. -/
def scrapeDevelop (env : ScrapeEnv) (now : Nat) (store : Store DevelopData)
    (category component : String) : ScrapeResult :=
  let cacheKey := developCacheKey category component
  let store₁ := (cacheGet now store cacheKey).2
  match (cacheGet now store cacheKey).1 with
  | some cached =>
    { outcome := .ok cached, contextCreated := false, contextClosed := false
      store := store₁ }
  | none =>
    match env.launch with
    | .error e =>
      { outcome := .error e, contextCreated := false, contextClosed := false
        store := store₁ }
    | .ok _ =>
      match env.newContext with
      | .error e =>
        { outcome := .error e, contextCreated := false, contextClosed := false
          store := store₁ }
      | .ok _ =>
        match env.route with
        | .error e =>
          { outcome := .error e, contextCreated := true, contextClosed := false
            store := store₁ }
        | .ok _ =>
          match env.newPage with
          | .error e =>
            { outcome := .error e, contextCreated := true, contextClosed := false
              store := store₁ }
          | .ok _ =>
            match scrapeTryBody env with
            | .error e =>
              { outcome := .error e, contextCreated := true, contextClosed := true
                store := store₁ }
            | .ok data =>
              { outcome := .ok data, contextCreated := true, contextClosed := true
                store := cacheSet now store₁ cacheKey data TTL_DEVELOP }

/-- `.replace(/\|/g, "\\|")`. -/
def escapePipes (s : String) : String :=
  ⟨s.data.flatMap fun c => if c = '|' then ['\\', '|'] else [c]⟩

/-- A pipe is *escaped* when a backslash immediately precedes it; this
predicate holds when a character list has no bare (unescaped) pipe. -/
def noBarePipe : List Char → Bool
  | [] => true
  | [c] => decide (c ≠ '|')
  | c :: d :: rest =>
    if c = '\\' ∧ d = '|' then noBarePipe rest
    else decide (c ≠ '|') && noBarePipe (d :: rest)

def tableHeaderRow : String := "| Property | Type | Default | Description |"
def tableSeparatorRow : String := "|----------|------|---------|-------------|"

/-- One property row of the markdown table: the name lands in a code span
verbatim, the other three cells through `escapePipes`. -/
def formatRow (p : PropertyInfo) : String :=
  "| `" ++ p.name ++ "` | " ++ escapePipes p.type ++ " | "
    ++ escapePipes p.default ++ " | " ++ escapePipes p.description ++ " |"

/-- The `parts` array built by `formatDevelopData`. -/
def formatParts (data : DevelopData) : List String :=
  data.sections.flatMap fun sec =>
    ["## " ++ sec.heading ++ "\n", tableHeaderRow, tableSeparatorRow]
      ++ sec.properties.map formatRow ++ [""]

/-- `formatDevelopData`: fixed message on no sections, else the parts
joined with newlines. -/
def formatDevelopData (data : DevelopData) : String :=
  if data.sections.length = 0 then
    "No property data found for this component."
  else
    String.intercalate "\n" (formatParts data)

/-! ## Spec-side comparison definitions

These two definitions follow the *spec's words* (not the source) and exist
only to be compared against the source-derived definitions above. -/

/-- Modelled from the spec's words for comparison with `suggestComponent`:
“case-insensitive substring match of `input` against every component's slug
and display name”, at most 5 results, registry order. -/
def suggestComponentSpec (input : String) (registry : ComponentRegistry) : List String :=
  let lower := jsToLower input
  ((registry.components.filter fun c =>
      jsIncludes (jsToLower c.slug) lower || jsIncludes (jsToLower c.name) lower).take 5).map
    fun c => c.slug

/-- Modelled from the spec's words for comparison with `formatRow`: “pipe
characters inside any cell value are escaped” — the name cell included. -/
def formatRowSpec (p : PropertyInfo) : String :=
  "| `" ++ escapePipes p.name ++ "` | " ++ escapePipes p.type ++ " | "
    ++ escapePipes p.default ++ " | " ++ escapePipes p.description ++ " |"

def formatPartsSpec (data : DevelopData) : List String :=
  data.sections.flatMap fun sec =>
    ["## " ++ sec.heading ++ "\n", tableHeaderRow, tableSeparatorRow]
      ++ sec.properties.map formatRowSpec ++ [""]

def formatDevelopDataSpec (data : DevelopData) : String :=
  if data.sections.length = 0 then
    "No property data found for this component."
  else
    String.intercalate "\n" (formatPartsSpec data)

/-! ## Small helpers and concrete fixtures -/

def exceptIsOk : Except ε α → Bool
  | .ok _ => true
  | .error _ => false

/-- A trivial `parseFrontmatter` instantiation for concrete runs. -/
def pfTrivial : String → String × String := fun _ => ("", "")

def okResp (body : String) : HttpResponse :=
  { status := 200, statusText := "OK", ok := true, body := body }

def resp404 : HttpResponse :=
  { status := 404, statusText := "Not Found", ok := false, body := "" }

def resp500 : HttpResponse :=
  { status := 500, statusText := "Internal Server Error", ok := false, body := "" }

/-- A network whose every raw fetch yields `r` and whose tree call succeeds
with an empty tree. -/
def constNet (r : HttpResponse) : Network :=
  { treeResponse := okResp "", treeBody := [], raw := fun _ => r }

/-- A network that fails every request. -/
def netDown : Network :=
  { treeResponse := resp500, treeBody := [], raw := fun _ => resp500 }

/-- One component under `actions/button`, whose `index.mdx` raw fetch 404s. -/
def net404 : Network :=
  { treeResponse := okResp ""
    treeBody :=
      [{ path := "apps/docs/src/content/04-components/actions/button/index.mdx"
         type := "blob" }]
    raw := fun _ => resp404 }

/-- The same slug `dup` under two categories; all raw fetches 404. -/
def netDup : Network :=
  { treeResponse := okResp ""
    treeBody :=
      [{ path := "apps/docs/src/content/04-components/cat1/dup/index.mdx"
         type := "blob" },
       { path := "apps/docs/src/content/04-components/cat2/dup/index.mdx"
         type := "blob" }]
    raw := fun _ => resp404 }

/-- One component under `actions/button`, whose `index.mdx` raw fetch
fails with a 500. -/
def netErrComp : Network :=
  { treeResponse := okResp ""
    treeBody :=
      [{ path := "apps/docs/src/content/04-components/actions/button/index.mdx"
         type := "blob" }]
    raw := fun _ => resp500 }

/-- The registry `getRegistry` builds from `net404`. -/
def reg404 : ComponentRegistry :=
  let comps : List ComponentInfo :=
    [{ slug := "button", name := "button", description := "", category := "actions" }]
  { components := comps, bySlug := buildBySlug comps }

/-- The registry `getRegistry` builds from `netDup`. -/
def regDup : ComponentRegistry :=
  let comps : List ComponentInfo :=
    [{ slug := "dup", name := "dup", description := "", category := "cat1" },
     { slug := "dup", name := "dup", description := "", category := "cat2" }]
  { components := comps, bySlug := buildBySlug comps }

def registryEx : ComponentRegistry :=
  let comps : List ComponentInfo :=
    [{ slug := "button", name := "Button", description := "", category := "actions" },
     { slug := "button-group", name := "ButtonGroup", description := "", category := "actions" },
     { slug := "text-field", name := "TextField", description := "", category := "form-controls" }]
  { components := comps, bySlug := buildBySlug comps }

/-- A registry whose only slug contains uppercase letters. -/
def regCase : ComponentRegistry :=
  let comps : List ComponentInfo :=
    [{ slug := "AB", name := "x", description := "", category := "cat" }]
  { components := comps, bySlug := buildBySlug comps }

def regBtn : ComponentRegistry :=
  let comps : List ComponentInfo :=
    [{ slug := "button", name := "Button", description := "", category := "actions" }]
  { components := comps, bySlug := buildBySlug comps }

/-- A store holding `regBtn` as a freshly cached registry. -/
def storeBtn : Store ComponentRegistry :=
  [("registry", { value := regBtn, expiresAt := TTL_REGISTRY })]

/-- One section whose single property has a pipe in its name. -/
def dataPipe : DevelopData :=
  { sections :=
      [{ heading := "Properties"
         properties :=
           [{ name := "a|b", type := "", default := "", required := false
              description := "" }] }] }

/-- A scrape run whose route installation rejects. -/
def envRouteFail : ScrapeEnv :=
  { launch := .ok (), newContext := .ok (), route := .error "route failed"
    newPage := .ok (), goto := .ok (), waitForSelector := .ok ()
    extractMain := .ok [], accordions := .ok [] }

/-- A scrape run whose navigation times out. -/
def envGotoFail : ScrapeEnv :=
  { launch := .ok (), newContext := .ok (), route := .ok ()
    newPage := .ok (), goto := .error "Timeout 30000ms exceeded"
    waitForSelector := .ok (), extractMain := .ok [], accordions := .ok [] }

end MittwaldFlow

deriving instance DecidableEq for Except

namespace MittwaldFlow

/-- C10: at the exact expiry instant (current time equal to the entry's
`expiresAt = t + ttl`), `cacheGet` still returns the stored value rather
than a miss — the boundary is inclusive, because the eviction test is the
strict `Date.now() > entry.expiresAt`. -/
theorem c10_cacheGet_at_expiry {α : Type} (store : Store α) (key : String) (v : α)
    (ttl t : Nat) :
    (cacheGet (t + ttl) (cacheSet t store key v ttl) key).1 = some v := by
  unfold cacheGet cacheSet
  rw [mapGet_mapSet]
  simp

/-- C6: after `cacheSet` at time `t` with some `ttl`, `cacheGet` returns
the stored value at any time strictly before `t + ttl`, and a miss at any
time strictly after; the post-expiry lookup removes the entry from the
store (lazy eviction), and a never-set key always misses. -/
theorem c6_cache_ttl {α : Type} (store : Store α) (key : String) (v : α)
    (ttl t t' : Nat) (hwf : storeWF store) :
    (t' < t + ttl → (cacheGet t' (cacheSet t store key v ttl) key).1 = some v) ∧
    (t + ttl < t' →
      (cacheGet t' (cacheSet t store key v ttl) key).1 = none ∧
      mapGet (cacheGet t' (cacheSet t store key v ttl) key).2 key = none) ∧
    (mapGet store key = none → (cacheGet t' store key).1 = none) := by
  refine ⟨?_, ?_, ?_⟩
  · intro hlt
    unfold cacheGet cacheSet
    rw [mapGet_mapSet]
    simp [Nat.not_lt.mpr (Nat.le_of_lt hlt)]
  · intro hgt
    unfold cacheGet cacheSet
    rw [mapGet_mapSet]
    simp only [if_pos rfl, gt_iff_lt, hgt, if_true]
    exact ⟨trivial, mapGet_mapDelete_self _ _ (storeWF_mapSet _ _ _ hwf)⟩
  · intro hnone
    unfold cacheGet
    rw [hnone]

/-- Witness for C6: set `"k" ↦ 7` at time 0 with TTL 5; time 3 hits,
time 6 misses and evicts, and the never-set `"q"` misses. -/
theorem c6_cache_ttl_witness :
    (cacheGet 3 (cacheSet 0 ([] : Store Nat) "k" 7 5) "k").1 = some 7 ∧
    (cacheGet 6 (cacheSet 0 ([] : Store Nat) "k" 7 5) "k").1 = none ∧
    mapGet (cacheGet 6 (cacheSet 0 ([] : Store Nat) "k" 7 5) "k").2 "k" = none ∧
    (cacheGet 3 ([] : Store Nat) "q").1 = none := by
  have h3 := c6_cache_ttl ([] : Store Nat) "k" 7 5 0 3 List.Pairwise.nil
  have h6 := c6_cache_ttl ([] : Store Nat) "k" 7 5 0 6 List.Pairwise.nil
  exact ⟨h3.1 (by decide), (h6.2.1 (by decide)).1, (h6.2.1 (by decide)).2,
    h3.2.2 rfl⟩

/-- C8: the composite cache keys of `scrapeDevelop`, `fetchMdx` and
`fetchExample` are not injective in `(category, component)` — a slash in
either part makes distinct pairs collide, and a value cached for one pair
is then served for the other (here even while the network is down). -/
theorem c8_cache_key_collision :
    (("a", "b/c") ≠ (("a/b", "c") : String × String)) ∧
    developCacheKey "a" "b/c" = developCacheKey "a/b" "c" ∧
    mdxCacheKey "a" "b/c" "overview" = mdxCacheKey "a/b" "c" "overview" ∧
    exampleCacheKey "a" "b/c" "default" = exampleCacheKey "a/b" "c" "default" ∧
    fetchMdx (constNet (okResp "X")) 0 [] "a" "b/c" "overview" =
      (.ok (some "X"),
       [(mdxCacheKey "a" "b/c" "overview", { value := "X", expiresAt := TTL_MDX })]) ∧
    fetchMdx netDown 0
        [(mdxCacheKey "a" "b/c" "overview", { value := "X", expiresAt := TTL_MDX })]
        "a/b" "c" "overview" =
      (.ok (some "X"),
       [(mdxCacheKey "a" "b/c" "overview", { value := "X", expiresAt := TTL_MDX })]) ∧
    (scrapeDevelop envRouteFail 0
        [(developCacheKey "a" "b/c", { value := ⟨[]⟩, expiresAt := 5 })]
        "a/b" "c").outcome = .ok (⟨[]⟩ : DevelopData) := by
  decide

theorem flatMapEsc_head_ne (l : List Char) (d : Char) (r : List Char)
    (h : (l.flatMap fun c => if c = '|' then ['\\', '|'] else [c]) = d :: r) :
    d ≠ '|' := by
  induction l generalizing d r with
  | nil => simp at h
  | cons c t ih =>
    by_cases hc : c = '|'
    · subst hc
      simp only [List.flatMap_cons, if_pos rfl, List.cons_append, List.nil_append] at h
      injection h with h1 h2
      rw [← h1]; decide
    · simp only [List.flatMap_cons, if_neg hc, List.singleton_append] at h
      injection h with h1 h2
      rw [← h1]; exact hc

/-- The replacement `/\|/g ↦ "\\|"` leaves no unescaped pipe. -/
theorem noBarePipe_flatMapEsc (l : List Char) :
    noBarePipe (l.flatMap fun c => if c = '|' then ['\\', '|'] else [c]) = true := by
  induction l with
  | nil => rfl
  | cons c t ih =>
    by_cases hc : c = '|'
    · subst hc
      simp only [List.flatMap_cons, if_pos rfl, List.cons_append, List.nil_append]
      cases hw : (t.flatMap fun c => if c = '|' then ['\\', '|'] else [c]) with
      | nil => rfl
      | cons d r =>
        show noBarePipe ('\\' :: '|' :: (d :: r)) = true
        rw [noBarePipe, if_pos ⟨rfl, rfl⟩, ← hw]
        exact ih
    · simp only [List.flatMap_cons, if_neg hc, List.singleton_append]
      cases hw : (t.flatMap fun c => if c = '|' then ['\\', '|'] else [c]) with
      | nil => simp [noBarePipe, hc]
      | cons d r =>
        have hd := flatMapEsc_head_ne t d r hw
        rw [noBarePipe, if_neg (fun hh => hd hh.2)]
        rw [← hw, ih]
        simp [hc]

/-- C2 (amended): `formatDevelopData` emits, for every property of every
section, exactly the row `formatRow p`, in which the `type`, `default` and
`description` cells have every pipe escaped; the `name` cell is emitted
verbatim (see the counterexample for the unescaped-name divergence from
the claim as stated). -/
theorem c2_formatDevelopData (data : DevelopData) :
    ∀ sec ∈ data.sections, ∀ p ∈ sec.properties,
      formatRow p ∈ formatParts data ∧
      noBarePipe (escapePipes p.type).data = true ∧
      noBarePipe (escapePipes p.default).data = true ∧
      noBarePipe (escapePipes p.description).data = true := by
  intro sec hsec p hp
  refine ⟨?_, noBarePipe_flatMapEsc _, noBarePipe_flatMapEsc _, noBarePipe_flatMapEsc _⟩
  unfold formatParts
  refine List.mem_flatMap.mpr ⟨sec, hsec, ?_⟩
  simp only [List.mem_append, List.mem_map]
  exact Or.inl (Or.inr ⟨p, hp, rfl⟩)

/-- Witness for C2 at a concrete table with pipes in the `type` and
`description` cells. -/
theorem c2_formatDevelopData_witness :
    formatRow { name := "onPress", type := "A | B", default := "", required := false
                description := "1 | 2" }
      ∈ formatParts
          ⟨[{ heading := "Events"
              properties := [{ name := "onPress", type := "A | B", default := ""
                               required := false, description := "1 | 2" }] }]⟩ ∧
    noBarePipe (escapePipes "A | B").data = true := by
  have h := c2_formatDevelopData
    ⟨[{ heading := "Events"
        properties := [{ name := "onPress", type := "A | B", default := ""
                         required := false, description := "1 | 2" }] }]⟩
    { heading := "Events"
      properties := [{ name := "onPress", type := "A | B", default := ""
                       required := false, description := "1 | 2" }] }
    (by decide)
    { name := "onPress", type := "A | B", default := "", required := false
      description := "1 | 2" }
    (by decide)
  exact ⟨h.1, h.2.1⟩

/-- Counterexample to C2 as stated: a pipe in the `name` cell is *not*
escaped — the emitted row differs from the all-cells-escaped rendering and
contains the bare-piped code span `` `a|b` ``. -/
theorem c2_formatDevelopData_counter :
    formatDevelopData dataPipe ≠ formatDevelopDataSpec dataPipe ∧
    jsIncludes (formatDevelopData dataPipe) "`a|b`" = true ∧
    noBarePipe ("a|b").data = false := by
  decide

/-- C3 (amended): `suggestComponent` returns, in registry iteration order
and truncated to 5, the slugs of the components whose *raw* slug contains
the lowercased input, or whose lowercased display name contains the
lowercased input — the slug side of the match is case-sensitive (see the
counterexample). -/
theorem c3_suggestComponent (input : String) (registry : ComponentRegistry) :
    suggestComponent input registry =
      ((registry.components.filter fun c =>
          jsIncludes c.slug (jsToLower input) ||
            jsIncludes (jsToLower c.name) (jsToLower input)).map fun c => c.slug).take 5 ∧
    (suggestComponent input registry).length ≤ 5 ∧
    (∀ s ∈ suggestComponent input registry, ∃ c ∈ registry.components,
      c.slug = s ∧
        (jsIncludes c.slug (jsToLower input) ||
          jsIncludes (jsToLower c.name) (jsToLower input)) = true) := by
  refine ⟨by simp [suggestComponent, List.map_take], ?_, ?_⟩
  · simp only [suggestComponent, List.length_map, List.length_take]
    exact min_le_left _ _
  · intro s hs
    simp only [suggestComponent, List.mem_map] at hs
    obtain ⟨c, hc, rfl⟩ := hs
    have hcf : c ∈ registry.components.filter fun c =>
        jsIncludes c.slug (jsToLower input) ||
          jsIncludes (jsToLower c.name) (jsToLower input) :=
      List.take_subset 5 _ hc
    have := List.mem_filter.mp hcf
    exact ⟨c, this.1, rfl, this.2⟩

/-- Witness for C3: the spec's own example registry; `"butt"` suggests
`button` and `button-group`. -/
theorem c3_suggestComponent_witness :
    suggestComponent "butt" registryEx = ["button", "button-group"] ∧
    (suggestComponent "butt" registryEx).length ≤ 5 ∧
    (∃ c ∈ registryEx.components, c.slug = "button" ∧
      (jsIncludes c.slug (jsToLower "butt") ||
        jsIncludes (jsToLower c.name) (jsToLower "butt")) = true) := by
  have h := c3_suggestComponent "butt" registryEx
  exact ⟨by decide, h.2.1, h.2.2 "button" (by decide)⟩

/-- Counterexample to C3 as stated: slug `"AB"` contains `"ab"`
case-insensitively, yet `suggestComponent` misses it, because the slug is
matched against the lowercased input without being lowercased itself. -/
theorem c3_suggestComponent_counter :
    jsIncludes (jsToLower "AB") (jsToLower "ab") = true ∧
    suggestComponent "ab" regCase = [] ∧
    suggestComponentSpec "ab" regCase = ["AB"] := by
  decide

/-- C5 (amended): with no truthy cached value, `fetchMdx` returns `null`
on a 404 and caches nothing; raises the raw-fetch error on any other
non-success status; and on a successful fetch returns the body as raw
text, caching it under `TTL.MDX` only when it is nonempty (an empty body
is returned but *not* cached — see the counterexample). -/
theorem c5_fetchMdx (net : Network) (now : Nat) (store : Store String)
    (category component tab : String)
    (hmiss : jsTruthy (cacheGet now store (mdxCacheKey category component tab)).1 = false) :
    ((net.raw (mdxUrl category component tab)).status = 404 →
      fetchMdx net now store category component tab =
        (.ok none, (cacheGet now store (mdxCacheKey category component tab)).2)) ∧
    ((net.raw (mdxUrl category component tab)).status ≠ 404 →
      (net.raw (mdxUrl category component tab)).ok = false →
      fetchMdx net now store category component tab =
        (.error ("GitHub raw fetch error: "
            ++ toString (net.raw (mdxUrl category component tab)).status ++ " "
            ++ (net.raw (mdxUrl category component tab)).statusText),
         (cacheGet now store (mdxCacheKey category component tab)).2)) ∧
    ((net.raw (mdxUrl category component tab)).status ≠ 404 →
      (net.raw (mdxUrl category component tab)).ok = true →
      fetchMdx net now store category component tab =
        (.ok (some (net.raw (mdxUrl category component tab)).body),
         if (net.raw (mdxUrl category component tab)).body.isEmpty then
           (cacheGet now store (mdxCacheKey category component tab)).2
         else
           cacheSet now (cacheGet now store (mdxCacheKey category component tab)).2
             (mdxCacheKey category component tab)
             (net.raw (mdxUrl category component tab)).body TTL_MDX)) := by
  refine ⟨?_, ?_, ?_⟩
  · intro h404
    simp only [fetchMdx, hmiss, Bool.false_eq_true, if_false, fetchRaw, h404, if_pos rfl]
    simp [jsTruthy, strOptFalsy]
  · intro h404 hok
    simp only [fetchMdx, hmiss, Bool.false_eq_true, if_false, fetchRaw, if_neg h404, hok,
      Bool.not_false, if_pos rfl]
    simp
  · intro h404 hok
    simp only [fetchMdx, hmiss, Bool.false_eq_true, if_false, fetchRaw, if_neg h404, hok,
      Bool.not_true, Bool.false_eq_true, if_false]
    by_cases hbody : (net.raw (mdxUrl category component tab)).body.isEmpty
    · simp [jsTruthy, strOptFalsy, hbody]
    · simp [jsTruthy, strOptFalsy, hbody]

/-- Witness for C5: empty store; a 404 network, a failing network, and a
successful fetch of `"T"` (which is cached). -/
theorem c5_fetchMdx_witness :
    jsTruthy (cacheGet 0 ([] : Store String) (mdxCacheKey "a" "b" "develop")).1 = false ∧
    fetchMdx (constNet resp404) 0 [] "a" "b" "develop" = (.ok none, []) ∧
    fetchMdx netDown 0 [] "a" "b" "develop" =
      (.error "GitHub raw fetch error: 500 Internal Server Error", []) ∧
    fetchMdx (constNet (okResp "T")) 0 [] "a" "b" "develop" =
      (.ok (some "T"), cacheSet 0 [] (mdxCacheKey "a" "b" "develop") "T" TTL_MDX) := by
  have hm : jsTruthy (cacheGet 0 ([] : Store String) (mdxCacheKey "a" "b" "develop")).1
      = false := by decide
  have h4 := c5_fetchMdx (constNet resp404) 0 [] "a" "b" "develop" hm
  have h5 := c5_fetchMdx netDown 0 [] "a" "b" "develop" hm
  have hT := c5_fetchMdx (constNet (okResp "T")) 0 [] "a" "b" "develop" hm
  exact ⟨hm, h4.1 rfl, h5.2.1 (by decide) rfl, hT.2.2 (by decide) rfl⟩

/-- Counterexample to C5 as stated: a successful fetch whose body is the
empty string is returned as raw text but cached nowhere — the store stays
empty. -/
theorem c5_fetchMdx_counter :
    fetchMdx (constNet (okResp "")) 0 [] "a" "b" "overview" = (.ok (some ""), []) ∧
    mapGet (fetchMdx (constNet (okResp "")) 0 [] "a" "b" "overview").2
      (mdxCacheKey "a" "b" "overview") = none := by
  decide

/-- C7 (amended): `resolveCategory` with a *nonempty* supplied category
returns `(category, component)` verbatim with the store untouched (the
registry is not consulted); with a falsy category (absent or empty — see
the counterexample for the empty case) it resolves through the registry's
`bySlug` map, returning the entry's `(category, slug)` on a hit and the
`null` miss signal on a miss. -/
theorem c7_resolveCategory (parseFM : String → String × String) (net : Network)
    (now : Nat) (store : Store ComponentRegistry) (component : String) :
    (∀ c : String, c.isEmpty = false →
      resolveCategory parseFM net now store component (some c) =
        (.ok (some (c, component)), store)) ∧
    (∀ category : Option String, strOptFalsy category = true →
      (∀ reg info, (getRegistry parseFM net now store).1 = .ok reg →
        mapGet reg.bySlug component = some info →
        resolveCategory parseFM net now store component category =
          (.ok (some (info.category, info.slug)), (getRegistry parseFM net now store).2)) ∧
      (∀ reg, (getRegistry parseFM net now store).1 = .ok reg →
        mapGet reg.bySlug component = none →
        resolveCategory parseFM net now store component category =
          (.ok none, (getRegistry parseFM net now store).2))) := by
  constructor
  · intro c hc
    simp [resolveCategory, jsTruthy, strOptFalsy, hc]
  · intro category hcat
    have hfalsy : jsTruthy category = false := by simp [jsTruthy, hcat]
    constructor
    · intro reg info hreg hinfo
      simp only [resolveCategory, hfalsy, Bool.false_eq_true, if_false, hreg, hinfo]
    · intro reg hreg hnone
      simp only [resolveCategory, hfalsy, Bool.false_eq_true, if_false, hreg, hnone]

/-- Witness for C7: with a freshly cached one-component registry, a
nonempty category is returned verbatim; omitting the category resolves
`button` to `actions` and signals a miss for `nope`. -/
theorem c7_resolveCategory_witness :
    ("actions" : String).isEmpty = false ∧
    resolveCategory pfTrivial netDown 0 storeBtn "whatever" (some "actions") =
      (.ok (some ("actions", "whatever")), storeBtn) ∧
    resolveCategory pfTrivial netDown 0 storeBtn "button" none =
      (.ok (some ("actions", "button")), storeBtn) ∧
    resolveCategory pfTrivial netDown 0 storeBtn "nope" none = (.ok none, storeBtn) := by
  have h1 := c7_resolveCategory pfTrivial netDown 0 storeBtn "whatever"
  have h2 := c7_resolveCategory pfTrivial netDown 0 storeBtn "button"
  have h3 := c7_resolveCategory pfTrivial netDown 0 storeBtn "nope"
  refine ⟨by decide, h1.1 "actions" (by decide), ?_, ?_⟩
  · exact (h2.2 none (by decide)).1 regBtn
      { slug := "button", name := "Button", description := "", category := "actions" }
      (by decide) (by decide)
  · exact (h3.2 none (by decide)).2 regBtn (by decide) (by decide)

/-- Counterexample to C7 as stated: the explicitly supplied empty category
is *not* returned verbatim — `resolveCategory` falls through to the
registry lookup (`button` resolves to `actions`; `nope` misses instead of
yielding `("", "nope")`). -/
theorem c7_resolveCategory_counter :
    resolveCategory pfTrivial netDown 0 storeBtn "nope" (some "") = (.ok none, storeBtn) ∧
    resolveCategory pfTrivial netDown 0 storeBtn "button" (some "") =
      (.ok (some ("actions", "button")), storeBtn) ∧
    ((.ok none : Except String (Option (String × String))) ≠ .ok (some ("", "nope"))) := by
  decide

/-- C4 (amended): once routing installation and page creation have both
resolved, `scrapeDevelop` closes the context exactly when it created one —
the whole extraction procedure (navigation, waiting, table extraction,
accordion handling) runs inside `try`/`finally`.  The claim as stated
fails because `context.route` and `context.newPage` are awaited *before*
the `try` (see the counterexample). -/
theorem c4_scrapeDevelop (env : ScrapeEnv) (now : Nat) (store : Store DevelopData)
    (category component : String)
    (hroute : env.route = .ok ()) (hpage : env.newPage = .ok ()) :
    (scrapeDevelop env now store category component).contextClosed =
      (scrapeDevelop env now store category component).contextCreated := by
  simp only [scrapeDevelop]
  cases hc : (cacheGet now store (developCacheKey category component)).1 with
  | some cached => rfl
  | none =>
    cases hl : env.launch with
    | error e => rfl
    | ok u =>
      cases hn : env.newContext with
      | error e => rfl
      | ok u2 =>
        rw [hroute, hpage]
        cases ht : scrapeTryBody env <;> rfl

/-- Witness for C4: a run failing at navigation still closes the context
it created. -/
theorem c4_scrapeDevelop_witness :
    envGotoFail.route = .ok () ∧ envGotoFail.newPage = .ok () ∧
    (scrapeDevelop envGotoFail 0 [] "actions" "button").contextClosed =
      (scrapeDevelop envGotoFail 0 [] "actions" "button").contextCreated ∧
    (scrapeDevelop envGotoFail 0 [] "actions" "button").contextCreated = true := by
  exact ⟨rfl, rfl, c4_scrapeDevelop envGotoFail 0 [] "actions" "button" rfl rfl, by decide⟩

/-- Counterexample to C4 as stated: when `context.route` rejects, the
created context is never closed — that await happens before the
`try`/`finally`. -/
theorem c4_scrapeDevelop_counter :
    (scrapeDevelop envRouteFail 0 [] "actions" "button").contextCreated = true ∧
    (scrapeDevelop envRouteFail 0 [] "actions" "button").contextClosed = false := by
  decide

theorem fetchAll_error_of_mem (net : Network) (l : List (String × String))
    (cat slug e : String) (hmem : (cat, slug) ∈ l)
    (herr : fetchRaw (net.raw (componentUrl cat slug)) = .error e) :
    ∃ e', fetchAll net l = .error e' := by
  induction l with
  | nil => cases hmem
  | cons p t ih =>
    obtain ⟨pc, ps⟩ := p
    rcases List.mem_cons.mp hmem with heq | hmem'
    · cases heq
      exact ⟨e, by simp [fetchAll, herr]⟩
    · cases hf : fetchRaw (net.raw (componentUrl pc ps)) with
      | error e2 => exact ⟨e2, by simp [fetchAll, hf]⟩
      | ok raw =>
        obtain ⟨e', he'⟩ := ih hmem'
        exact ⟨e', by simp [fetchAll, hf, he']⟩

theorem fetchAll_ok_of_all (net : Network) (l : List (String × String))
    (h : ∀ p ∈ l, exceptIsOk (fetchRaw (net.raw (componentUrl p.1 p.2))) = true) :
    ∃ r, fetchAll net l = .ok r := by
  induction l with
  | nil => exact ⟨[], rfl⟩
  | cons p t ih =>
    obtain ⟨pc, ps⟩ := p
    have hp := h (pc, ps) (List.mem_cons_self _ _)
    cases hf : fetchRaw (net.raw (componentUrl pc ps)) with
    | error e2 => rw [hf] at hp; simp [exceptIsOk] at hp
    | ok raw =>
      obtain ⟨r, hr⟩ := ih fun q hq => h q (List.mem_cons_of_mem _ hq)
      exact ⟨(pc, ps, raw) :: r, by simp [fetchAll, hf, hr]⟩

theorem fetchAll_mem (net : Network) (l : List (String × String))
    (r : List (String × String × Option String)) (hr : fetchAll net l = .ok r)
    (cat slug : String) (hmem : (cat, slug) ∈ l) :
    ∃ o, fetchRaw (net.raw (componentUrl cat slug)) = .ok o ∧ (cat, slug, o) ∈ r := by
  induction l generalizing r with
  | nil => cases hmem
  | cons p t ih =>
    obtain ⟨pc, ps⟩ := p
    unfold fetchAll at hr
    cases hf : fetchRaw (net.raw (componentUrl pc ps)) with
    | error e2 => rw [hf] at hr; simp at hr
    | ok raw =>
      rw [hf] at hr
      cases hft : fetchAll net t with
      | error e2 => rw [hft] at hr; simp at hr
      | ok rt =>
        rw [hft] at hr
        injection hr with hr'
        subst hr'
        rcases List.mem_cons.mp hmem with heq | hmem'
        · cases heq
          exact ⟨raw, hf, List.mem_cons_self _ _⟩
        · obtain ⟨o, ho, homem⟩ := ih rt hft hmem'
          exact ⟨o, ho, List.mem_cons_of_mem _ homem⟩

theorem fetchAll_pairs (net : Network) (l : List (String × String))
    (r : List (String × String × Option String)) (hr : fetchAll net l = .ok r) :
    r.map (fun x => (x.1, x.2.1)) = l := by
  induction l generalizing r with
  | nil =>
    unfold fetchAll at hr
    injection hr with hr'
    subst hr'
    rfl
  | cons p t ih =>
    obtain ⟨pc, ps⟩ := p
    unfold fetchAll at hr
    cases hf : fetchRaw (net.raw (componentUrl pc ps)) with
    | error e2 => rw [hf] at hr; simp at hr
    | ok raw =>
      rw [hf] at hr
      cases hft : fetchAll net t with
      | error e2 => rw [hft] at hr; simp at hr
      | ok rt =>
        rw [hft] at hr
        injection hr with hr'
        subst hr'
        simp only [List.map_cons]
        rw [ih rt hft]

/-- C1: the registry build is atomic.  With no cached registry: a failing
tree-listing call propagates its error with the cache untouched; a
non-404 failure of any per-component `index.mdx` fetch aborts the whole
build with the cache untouched; when every per-component fetch resolves,
the build succeeds and the registry is cached whole; and a component whose
fetch 404s still appears, with `name = slug` and empty description. -/
theorem c1_getRegistry_atomic (parseFM : String → String × String) (net : Network)
    (now : Nat) (store : Store ComponentRegistry)
    (hmiss : (cacheGet now store "registry").1 = none) :
    (net.treeResponse.ok = false →
      ∃ e, getRegistry parseFM net now store =
        (.error e, (cacheGet now store "registry").2)) ∧
    (∀ cat slug e, net.treeResponse.ok = true →
      (cat, slug) ∈ treeEntriesOf net →
      fetchRaw (net.raw (componentUrl cat slug)) = .error e →
      ∃ e', getRegistry parseFM net now store =
        (.error e', (cacheGet now store "registry").2)) ∧
    (net.treeResponse.ok = true →
      (∀ p ∈ treeEntriesOf net,
        exceptIsOk (fetchRaw (net.raw (componentUrl p.1 p.2))) = true) →
      ∃ reg, getRegistry parseFM net now store =
        (.ok reg,
         cacheSet now (cacheGet now store "registry").2 "registry" reg TTL_REGISTRY)) ∧
    (∀ reg store₂ cat slug, getRegistry parseFM net now store = (.ok reg, store₂) →
      (cat, slug) ∈ treeEntriesOf net →
      (net.raw (componentUrl cat slug)).status = 404 →
      ({ slug := slug, name := slug, description := "", category := cat }
          : ComponentInfo) ∈ reg.components) := by
  refine ⟨?_, ?_, ?_, ?_⟩
  · intro htree
    exact ⟨"GitHub API error: " ++ toString net.treeResponse.status ++ " "
        ++ net.treeResponse.statusText,
      by simp [getRegistry, hmiss, fetchJsonTree, htree]⟩
  · intro cat slug e htreeok hmem herr
    obtain ⟨e', he'⟩ := fetchAll_error_of_mem net (treeEntriesOf net) cat slug e hmem herr
    unfold treeEntriesOf at he'
    exact ⟨e', by simp [getRegistry, hmiss, fetchJsonTree, htreeok, he']⟩
  · intro htreeok hall
    obtain ⟨r, hrr⟩ := fetchAll_ok_of_all net (treeEntriesOf net) hall
    unfold treeEntriesOf at hrr
    exact ⟨⟨r.map fun x => buildComponent parseFM x.1 x.2.1 x.2.2,
        buildBySlug (r.map fun x => buildComponent parseFM x.1 x.2.1 x.2.2)⟩,
      by simp [getRegistry, hmiss, fetchJsonTree, htreeok, hrr]⟩
  · intro reg store₂ cat slug hreg hmem h404
    simp only [getRegistry, hmiss] at hreg
    cases htr : fetchJsonTree net with
    | error e2 => rw [htr] at hreg; simp at hreg
    | ok tree =>
      simp only [htr] at hreg
      cases hfa : fetchAll net (indexEntries tree) with
      | error e2 => rw [hfa] at hreg; simp at hreg
      | ok r =>
        simp only [hfa] at hreg
        have hcomps :
            reg.components = r.map fun x => buildComponent parseFM x.1 x.2.1 x.2.2 := by
          have h1 := congrArg Prod.fst hreg
          simp only at h1
          injection h1 with h1'
          rw [← h1']
        have htree : tree = net.treeBody := by
          unfold fetchJsonTree at htr
          by_cases hok : (!net.treeResponse.ok) = true
          · rw [if_pos hok] at htr; simp at htr
          · rw [if_neg hok] at htr; injection htr with h; exact h.symm
        have hmem' : (cat, slug) ∈ indexEntries tree := by
          rw [htree]; exact hmem
        obtain ⟨o, ho, homem⟩ := fetchAll_mem net (indexEntries tree) r hfa cat slug hmem'
        have honone : o = none := by
          unfold fetchRaw at ho
          rw [if_pos h404] at ho
          injection ho with h
          exact h.symm
        subst honone
        rw [hcomps]
        exact List.mem_map_of_mem _ homem

/-- Witness for C1: the failing-tree network propagates an error with the
cache untouched; a 500 on `button`'s metadata aborts the build; the
404-everywhere network builds and caches a registry in which `button`
appears as `name = slug` with empty description. -/
theorem c1_getRegistry_atomic_witness :
    (cacheGet 0 ([] : Store ComponentRegistry) "registry").1 = none ∧
    (∃ e, getRegistry pfTrivial netDown 0 [] = (.error e, [])) ∧
    (∃ e', getRegistry pfTrivial netErrComp 0 [] = (.error e', [])) ∧
    (∃ reg, getRegistry pfTrivial net404 0 [] =
      (.ok reg, cacheSet 0 [] "registry" reg TTL_REGISTRY)) ∧
    ({ slug := "button", name := "button", description := "", category := "actions" }
        : ComponentInfo) ∈ reg404.components := by
  have hD := c1_getRegistry_atomic pfTrivial netDown 0 [] rfl
  have hE := c1_getRegistry_atomic pfTrivial netErrComp 0 [] rfl
  have h4 := c1_getRegistry_atomic pfTrivial net404 0 [] rfl
  refine ⟨rfl, hD.1 (by decide), ?_, h4.2.2.1 (by decide) (by decide), ?_⟩
  · exact hE.2.1 "actions" "button"
      "GitHub raw fetch error: 500 Internal Server Error"
      (by decide) (by decide) (by decide)
  · exact h4.2.2.2 reg404 (cacheSet 0 [] "registry" reg404 TTL_REGISTRY) "actions"
      "button" (by decide) (by decide) (by decide)

theorem mapGet_foldl_mapSet (l : List ComponentInfo) (k : String) :
    ∀ init, mapGet (l.foldl (fun m c => mapSet m c.slug c) init) k =
      match (l.filter fun c => c.slug == k).getLast? with
      | some c => some c
      | none => mapGet init k := by
  induction l with
  | nil => intro init; simp
  | cons c t ih =>
    intro init
    rw [List.foldl_cons, ih (mapSet init c.slug c)]
    cases hsk : c.slug == k with
    | true =>
      have hk : c.slug = k := by simpa using hsk
      simp only [List.filter_cons, hsk, if_true]
      rw [List.getLast?_cons]
      cases hlast : (t.filter fun c => c.slug == k).getLast? with
      | some d => simp [hlast]
      | none => simp [hlast, mapGet_mapSet, hk]
    | false =>
      have hk : ¬(c.slug = k) := by simpa using hsk
      simp only [List.filter_cons, hsk, Bool.false_eq_true, if_false]
      cases hlast : (t.filter fun c => c.slug == k).getLast? with
      | some d => simp [hlast]
      | none => simp [hlast, mapGet_mapSet, hk]

/-- Looking a slug up in the built `bySlug` map yields the *last*
component with that slug, in components order (`Map.set` overwrites). -/
theorem mapGet_buildBySlug (l : List ComponentInfo) (k : String) :
    mapGet (buildBySlug l) k = (l.filter fun c => c.slug == k).getLast? := by
  rw [buildBySlug, mapGet_foldl_mapSet]
  cases h : (l.filter fun c => c.slug == k).getLast? <;> simp [mapGet]

theorem buildComponent_slug (parseFM : String → String × String)
    (category slug : String) (raw : Option String) :
    (buildComponent parseFM category slug raw).slug = slug := by
  unfold buildComponent
  split <;> rfl

theorem buildComponent_category (parseFM : String → String × String)
    (category slug : String) (raw : Option String) :
    (buildComponent parseFM category slug raw).category = category := by
  unfold buildComponent
  split <;> rfl

/-- C9: a freshly built registry (cache miss, build succeeded) satisfies:
`bySlug` maps each key to the **last** component with that slug in
components order (so a slug duplicated across categories is bound to the
later tree entry); every `bySlug` value is an element of `components`
keyed by its own slug; and `components` carries exactly the
`(category, slug)` pairs of the fetched tree, in order — duplicates
included. -/
theorem c9_getRegistry_bySlug (parseFM : String → String × String) (net : Network)
    (now : Nat) (store : Store ComponentRegistry) (reg : ComponentRegistry)
    (store₂ : Store ComponentRegistry)
    (hmiss : (cacheGet now store "registry").1 = none)
    (hreg : getRegistry parseFM net now store = (.ok reg, store₂)) :
    (∀ k, mapGet reg.bySlug k = (reg.components.filter fun c => c.slug == k).getLast?) ∧
    (∀ k c, mapGet reg.bySlug k = some c → c ∈ reg.components ∧ c.slug = k) ∧
    reg.components.map (fun c => (c.category, c.slug)) = treeEntriesOf net := by
  simp only [getRegistry, hmiss] at hreg
  cases htr : fetchJsonTree net with
  | error e2 => rw [htr] at hreg; simp at hreg
  | ok tree =>
    simp only [htr] at hreg
    cases hfa : fetchAll net (indexEntries tree) with
    | error e2 => rw [hfa] at hreg; simp at hreg
    | ok r =>
      simp only [hfa] at hreg
      have h1 := congrArg Prod.fst hreg
      simp only at h1
      injection h1 with h1'
      have htree : tree = net.treeBody := by
        unfold fetchJsonTree at htr
        by_cases hok : (!net.treeResponse.ok) = true
        · rw [if_pos hok] at htr; simp at htr
        · rw [if_neg hok] at htr; injection htr with h; exact h.symm
      subst h1'
      refine ⟨?_, ?_, ?_⟩
      · intro k
        exact mapGet_buildBySlug _ k
      · intro k c hk
        rw [mapGet_buildBySlug] at hk
        have hc : c ∈ (r.map fun x => buildComponent parseFM x.1 x.2.1 x.2.2).filter
            fun c => c.slug == k := List.mem_of_mem_getLast? hk
        obtain ⟨hc1, hc2⟩ := List.mem_filter.mp hc
        exact ⟨hc1, by simpa using hc2⟩
      · rw [List.map_map]
        have hmapeq :
            r.map ((fun c : ComponentInfo => (c.category, c.slug)) ∘
                fun x => buildComponent parseFM x.1 x.2.1 x.2.2) =
              r.map fun x => (x.1, x.2.1) :=
          List.map_congr_left fun x _ => by
            simp [Function.comp, buildComponent_category, buildComponent_slug]
        rw [hmapeq, fetchAll_pairs net (indexEntries tree) r hfa, treeEntriesOf, htree]

/-- Witness for C9: the duplicate-slug network builds a registry holding
both `dup` entries in `components`, while `bySlug` binds `dup` to the
later (`cat2`) entry. -/
theorem c9_getRegistry_bySlug_witness :
    getRegistry pfTrivial netDup 0 [] =
      (.ok regDup, cacheSet 0 [] "registry" regDup TTL_REGISTRY) ∧
    mapGet regDup.bySlug "dup" =
      some { slug := "dup", name := "dup", description := "", category := "cat2" } ∧
    ({ slug := "dup", name := "dup", description := "", category := "cat1" }
        : ComponentInfo) ∈ regDup.components ∧
    regDup.components.map (fun c => (c.category, c.slug)) = treeEntriesOf netDup := by
  have hreg : getRegistry pfTrivial netDup 0 [] =
      (.ok regDup, cacheSet 0 [] "registry" regDup TTL_REGISTRY) := by decide
  have h := c9_getRegistry_bySlug pfTrivial netDup 0 []
    regDup (cacheSet 0 [] "registry" regDup TTL_REGISTRY) rfl hreg
  refine ⟨hreg, ?_, by decide, h.2.2⟩
  rw [h.1 "dup"]
  decide

end MittwaldFlow
